import Mathlib

/-!
Verification of the credential resolution and merge engine of the
cri-o credential provider.  Go strings are modelled as lists of bytes
(`GoStr := List Nat`, every element < 256), Go maps as association lists
with overwriting insertion, fallible Go functions as `Except`/`Option`
returning Lean functions.  All definitions are translated from the Go
sources under `internal/pkg/auth`, `internal/pkg/app`, the `k8s` and
`docker` packages; the public `auth.FilePath` helper, whose
implementation is not part of the sources (only its tests and callers
are), is modelled from the specification and marked as such.
-/

namespace CrioCred

/-- Go strings as byte lists (`[]byte(s)`); claims use ASCII only. -/
abbrev GoStr := List Nat

/-- Byte list of an ASCII Lean string literal (`[]byte` view of a Go string). -/
def gs (s : String) : GoStr := s.data.map Char.toNat

/-- Go `strings.HasPrefix(s, p)` is `p.isPrefixOf s` on the byte lists. -/
abbrev goHasPrefix (s p : GoStr) : Bool := p.isPrefixOf s

/-- Go `strings.TrimPrefix(s, p)`: drop `p` when it is a prefix, else identity. -/
def goTrimPrefix (s p : GoStr) : GoStr :=
  if p.isPrefixOf s then s.drop p.length else s

/-- Go `strings.Cut(s, sep)` for a single-byte separator: split at the first
occurrence, returning (before, after, found). -/
def goCut (s : List Nat) (sep : Nat) : List Nat × List Nat × Bool :=
  match s with
  | [] => ([], [], false)
  | c :: r =>
    if c = sep then ([], r, true)
    else
      let t := goCut r sep
      (c :: t.1, t.2.1, t.2.2)

/-- Go `strings.Trim(s, "\x00")`: strip leading and trailing NUL bytes. -/
def trimNul (s : List Nat) : List Nat :=
  ((s.dropWhile (fun c => c == 0)).reverse.dropWhile (fun c => c == 0)).reverse

/- ## Association lists modelling Go maps (overwriting insert) -/

/-- Go `map[string]β` as an association list; insertion overwrites in place. -/
abbrev AList (β : Type) := List (GoStr × β)

/-- Map lookup (keys are unique in every map the code builds). -/
def lookupA {β : Type} : AList β → GoStr → Option β
  | [], _ => none
  | (k', v') :: t, k => if k' = k then some v' else lookupA t k

/-- Map assignment `m[k] = v`: replace the binding in place or append. -/
def insertA {β : Type} : AList β → GoStr → β → AList β
  | [], k, v => [(k, v)]
  | (k', v') :: t, k, v => if k' = k then (k, v) :: t else (k', v') :: insertA t k v

/-- Key-membership test. -/
def hasKeyA {β : Type} (a : AList β) (k : GoStr) : Bool := (lookupA a k).isSome

theorem lookupA_insertA_self {β : Type} (a : AList β) (k : GoStr) (v : β) :
    lookupA (insertA a k v) k = some v := by
  induction a with
  | nil => simp [insertA, lookupA]
  | cons h t ih =>
    obtain ⟨k', v'⟩ := h
    by_cases hk : k' = k
    · simp [insertA, hk, lookupA]
    · simp [insertA, hk, lookupA, ih]

theorem lookupA_insertA_ne {β : Type} (a : AList β) (k k' : GoStr) (v : β)
    (h : k' ≠ k) : lookupA (insertA a k v) k' = lookupA a k' := by
  induction a with
  | nil => simp [insertA, lookupA, Ne.symm h]
  | cons hd t ih =>
    obtain ⟨k₀, v₀⟩ := hd
    by_cases hk : k₀ = k
    · subst hk
      simp [insertA, lookupA, Ne.symm h]
    · by_cases hk' : k₀ = k'
      · subst hk'
        simp [insertA, hk, h, lookupA]
      · simp [insertA, hk, lookupA, hk', ih]

theorem insertA_insertA {β : Type} (a : AList β) (k : GoStr) (v : β) :
    insertA (insertA a k v) k v = insertA a k v := by
  induction a with
  | nil => simp [insertA]
  | cons h t ih =>
    obtain ⟨k', v'⟩ := h
    by_cases hk : k' = k
    · simp [insertA, hk]
    · simp [insertA, hk, ih]

theorem mem_keys_insertA {β : Type} (a : AList β) (k x : GoStr) (v : β)
    (hx : x ∈ (insertA a k v).map Prod.fst) : x ∈ a.map Prod.fst ∨ x = k := by
  induction a with
  | nil => simp [insertA] at hx; simp [hx]
  | cons h t ih =>
    obtain ⟨k', v'⟩ := h
    by_cases hk : k' = k
    · simp [insertA, hk] at hx
      rcases hx with h1 | h1
      · right; exact h1
      · left; simp [h1]
    · simp only [insertA, if_neg hk, List.map_cons, List.mem_cons] at hx
      rcases hx with h1 | h1
      · left; simp [h1]
      · rcases ih h1 with h2 | h2
        · left; simp [h2]
        · right; exact h2

/-- Keys of an association list are pairwise distinct. -/
def nodupKeysA {β : Type} (a : AList β) : Prop := (a.map Prod.fst).Nodup

theorem nodupKeysA_insertA {β : Type} (a : AList β) (k : GoStr) (v : β)
    (h : nodupKeysA a) : nodupKeysA (insertA a k v) := by
  induction a with
  | nil => simp [insertA, nodupKeysA]
  | cons hd t ih =>
    obtain ⟨k', v'⟩ := hd
    simp only [nodupKeysA, List.map_cons, List.nodup_cons] at h
    by_cases hk : k' = k
    · subst hk
      simpa [insertA, nodupKeysA] using h
    · have ht := ih h.2
      simp only [insertA, if_neg hk, nodupKeysA, List.map_cons, List.nodup_cons]
      refine ⟨?_, ht⟩
      intro hmem
      rcases mem_keys_insertA t k k' v hmem with h1 | h1
      · exact h.1 h1
      · exact hk h1

theorem lookupA_eq_none_iff {β : Type} (a : AList β) (k : GoStr) :
    lookupA a k = none ↔ ∀ p ∈ a, p.1 ≠ k := by
  induction a with
  | nil => simp [lookupA]
  | cons h t ih =>
    obtain ⟨k', v'⟩ := h
    by_cases hk : k' = k
    · simp [lookupA, hk]
    · simp [lookupA, hk, ih]

theorem lookupA_eq_none_of_not_memKeys {β : Type} (a : AList β) (k : GoStr)
    (h : k ∉ a.map Prod.fst) : lookupA a k = none := by
  rw [lookupA_eq_none_iff]
  intro p hp hpk
  exact h (by simpa [hpk] using List.mem_map_of_mem Prod.fst hp)

/- ## Standard base64 (Go `encoding/base64` StdEncoding) -/

/-- Byte of the standard base64 alphabet at index `n < 64`. -/
def b64c (n : Nat) : Nat :=
  if n < 26 then 65 + n
  else if n < 52 then 71 + n
  else if n < 62 then n - 4
  else if n = 62 then 43
  else 47

/-- Index of a byte in the standard base64 alphabet, `none` for non-alphabet bytes. -/
def b64d (c : Nat) : Option Nat :=
  if 65 ≤ c ∧ c ≤ 90 then some (c - 65)
  else if 97 ≤ c ∧ c ≤ 122 then some (c - 71)
  else if 48 ≤ c ∧ c ≤ 57 then some (c + 4)
  else if c = 43 then some 62
  else if c = 47 then some 63
  else none

/-- `base64.StdEncoding.EncodeToString`: three bytes per four alphabet bytes,
trailing quantum padded with `'='` (byte 61). -/
def base64Encode : List Nat → List Nat
  | b1 :: b2 :: b3 :: rest =>
      b64c (b1 / 4) :: b64c (b1 % 4 * 16 + b2 / 16) ::
        b64c (b2 % 16 * 4 + b3 / 64) :: b64c (b3 % 64) :: base64Encode rest
  | [b1, b2] => [b64c (b1 / 4), b64c (b1 % 4 * 16 + b2 / 16), b64c (b2 % 16 * 4), 61]
  | [b1] => [b64c (b1 / 4), b64c (b1 % 4 * 16), 61, 61]
  | [] => []

/-- Decoding of the quanta of a base64 string: four bytes to three, `'='`
padding only in the final quantum, any other malformation rejected. -/
def base64DecodeQuanta : List Nat → Option (List Nat)
  | [] => some []
  | c1 :: c2 :: c3 :: c4 :: rest =>
    match b64d c1, b64d c2 with
    | some n1, some n2 =>
      if c3 = 61 then
        if c4 = 61 ∧ rest = [] then some [n1 * 4 + n2 / 16] else none
      else
        match b64d c3 with
        | some n3 =>
          if c4 = 61 then
            if rest = [] then some [n1 * 4 + n2 / 16, n2 % 16 * 16 + n3 / 4] else none
          else
            match b64d c4 with
            | some n4 =>
              (base64DecodeQuanta rest).map
                (fun tl => (n1 * 4 + n2 / 16) :: (n2 % 16 * 16 + n3 / 4) :: (n3 % 4 * 64 + n4) :: tl)
            | none => none
        | none => none
    | _, _ => none
  | _ => none

/-- `base64.StdEncoding.DecodeString`: newline bytes are ignored, then the
quanta are decoded strictly. -/
def base64Decode (s : List Nat) : Option (List Nat) :=
  base64DecodeQuanta (s.filter (fun c => c != 13 && c != 10))

theorem b64d_b64c : ∀ n < 64, b64d (b64c n) = some n := by decide

theorem b64c_ne_pad : ∀ n < 64, b64c n ≠ 61 ∧ b64c n ≠ 13 ∧ b64c n ≠ 10 := by decide

theorem base64Encode_mem_range (bs : List Nat) (h : ∀ b ∈ bs, b < 256) :
    ∀ c ∈ base64Encode bs, c = 61 ∨ ∃ n, n < 64 ∧ c = b64c n := by
  induction bs using base64Encode.induct with
  | case1 b1 b2 b3 rest ih =>
    have h1 : b1 < 256 := h b1 (by simp)
    have h2 : b2 < 256 := h b2 (by simp)
    have h3 : b3 < 256 := h b3 (by simp)
    intro c hc
    simp only [base64Encode, List.mem_cons] at hc
    rcases hc with hc | hc | hc | hc | hc
    · exact Or.inr ⟨b1 / 4, by omega, hc⟩
    · exact Or.inr ⟨b1 % 4 * 16 + b2 / 16, by omega, hc⟩
    · exact Or.inr ⟨b2 % 16 * 4 + b3 / 64, by omega, hc⟩
    · exact Or.inr ⟨b3 % 64, by omega, hc⟩
    · exact ih (fun b hb => h b (by simp [hb])) c hc
  | case2 b1 b2 =>
    have h1 : b1 < 256 := h b1 (by simp)
    have h2 : b2 < 256 := h b2 (by simp)
    intro c hc
    simp only [base64Encode, List.mem_cons] at hc
    rcases hc with hc | hc | hc | hc | hc
    · exact Or.inr ⟨b1 / 4, by omega, hc⟩
    · exact Or.inr ⟨b1 % 4 * 16 + b2 / 16, by omega, hc⟩
    · exact Or.inr ⟨b2 % 16 * 4, by omega, hc⟩
    · exact Or.inl hc
    · simp at hc
  | case3 b1 =>
    have h1 : b1 < 256 := h b1 (by simp)
    intro c hc
    simp only [base64Encode, List.mem_cons] at hc
    rcases hc with hc | hc | hc | hc | hc
    · exact Or.inr ⟨b1 / 4, by omega, hc⟩
    · exact Or.inr ⟨b1 % 4 * 16, by omega, hc⟩
    · exact Or.inl hc
    · exact Or.inl hc
    · simp at hc
  | case4 => intro c hc; simp [base64Encode] at hc

theorem base64Encode_filter (bs : List Nat) (h : ∀ b ∈ bs, b < 256) :
    (base64Encode bs).filter (fun c => c != 13 && c != 10) = base64Encode bs := by
  rw [List.filter_eq_self]
  intro c hc
  rcases base64Encode_mem_range bs h c hc with hc1 | ⟨n, hn, hc1⟩
  · subst hc1; decide
  · subst hc1
    have := (b64c_ne_pad n hn).2
    simp only [bne_iff_ne, ne_eq, Bool.and_eq_true, decide_eq_true_eq]
    exact ⟨this.1, this.2⟩

theorem base64DecodeQuanta_encode (bs : List Nat) (h : ∀ b ∈ bs, b < 256) :
    base64DecodeQuanta (base64Encode bs) = some bs := by
  induction bs using base64Encode.induct with
  | case1 b1 b2 b3 rest ih =>
    have h1 : b1 < 256 := h b1 (by simp)
    have h2 : b2 < 256 := h b2 (by simp)
    have h3 : b3 < 256 := h b3 (by simp)
    have e1 := b64d_b64c (b1 / 4) (by omega)
    have e2 := b64d_b64c (b1 % 4 * 16 + b2 / 16) (by omega)
    have e3 := b64d_b64c (b2 % 16 * 4 + b3 / 64) (by omega)
    have e4 := b64d_b64c (b3 % 64) (by omega)
    have ne3 := (b64c_ne_pad (b2 % 16 * 4 + b3 / 64) (by omega)).1
    have ne4 := (b64c_ne_pad (b3 % 64) (by omega)).1
    have ihr := ih (fun b hb => h b (by simp [hb]))
    simp [base64Encode, base64DecodeQuanta, e1, e2, e3, e4, if_neg ne3, if_neg ne4, ihr]
    omega
  | case2 b1 b2 =>
    have h1 : b1 < 256 := h b1 (by simp)
    have h2 : b2 < 256 := h b2 (by simp)
    have e1 := b64d_b64c (b1 / 4) (by omega)
    have e2 := b64d_b64c (b1 % 4 * 16 + b2 / 16) (by omega)
    have e3 := b64d_b64c (b2 % 16 * 4) (by omega)
    have ne3 := (b64c_ne_pad (b2 % 16 * 4) (by omega)).1
    simp [base64Encode, base64DecodeQuanta, e1, e2, e3, if_neg ne3]
    omega
  | case3 b1 =>
    have h1 : b1 < 256 := h b1 (by simp)
    have e1 := b64d_b64c (b1 / 4) (by omega)
    have e2 := b64d_b64c (b1 % 4 * 16) (by omega)
    simp [base64Encode, base64DecodeQuanta, e1, e2]
    omega
  | case4 => simp [base64Encode, base64DecodeQuanta]

/-- Base64 round trip: decoding an encoded byte string returns it unchanged. -/
theorem base64Decode_encode (bs : List Nat) (h : ∀ b ∈ bs, b < 256) :
    base64Decode (base64Encode bs) = some bs := by
  rw [base64Decode, base64Encode_filter bs h, base64DecodeQuanta_encode bs h]

/- ## JSON values and Go `encoding/json` unmarshalling into the docker types -/

/-- Parsed JSON values (the result of Go decoding bytes into `any`):
objects become `map[string]any`, strings become `string`, and so on. -/
inductive Json where
  | null : Json
  | bool (b : Bool) : Json
  | num (q : Int) : Json
  | str (s : GoStr) : Json
  | arr (xs : List Json) : Json
  | obj (fields : List (GoStr × Json)) : Json

/-- ASCII lower-casing of one byte, for Go JSON field-name folding. -/
def toLowerByte (c : Nat) : Nat := if 65 ≤ c ∧ c ≤ 90 then c + 32 else c

/-- Go `encoding/json` case-insensitive field-name match (ASCII fold). -/
def equalFold (a b : GoStr) : Bool := a.map toLowerByte == b.map toLowerByte

/-- The value assigned to a struct field by Go JSON decoding: every matching
key in document order overwrites the field, so the last one wins. -/
def lastFieldVal (fields : List (GoStr × Json)) (name : GoStr) : Option Json :=
  fields.foldl (fun acc kv => if equalFold kv.1 name then some kv.2 else acc) none

/-- `docker.AuthConfig`: a single registry's auth configuration
(`auth` is the base64 encoded credential in the format user:password). -/
structure AuthConfig where
  auth : GoStr
deriving DecidableEq

/-- `docker.ConfigEntry`: a decoded username/password pair. -/
structure ConfigEntry where
  username : GoStr
  password : GoStr
deriving DecidableEq

/-- `docker.ConfigJSON`: the `~/.docker/config.json` shape, a map from
registry prefix to `AuthConfig`. -/
structure ConfigJSON where
  Auths : AList AuthConfig
deriving DecidableEq

/-- Go `json.Unmarshal` of a JSON value into `docker.AuthConfig`: only a
string (or null) `auth` field is accepted; unknown fields are dropped. -/
def unmarshalAuthConfig : Json → Option AuthConfig
  | .obj fs =>
    match lastFieldVal fs (gs "auth") with
    | none => some ⟨[]⟩
    | some (.str s) => some ⟨s⟩
    | some .null => some ⟨[]⟩
    | some _ => none
  | .null => some ⟨[]⟩
  | _ => none

/-- Go `json.Unmarshal` of a JSON value into `map[string]AuthConfig`. -/
def unmarshalAuthsMap : Json → Option (AList AuthConfig)
  | .null => some []
  | .obj fs => fs.foldlM (fun m kv => (unmarshalAuthConfig kv.2).map (insertA m kv.1)) []
  | _ => none

/-- Go `json.Unmarshal` of a JSON value into `docker.ConfigJSON`. -/
def unmarshalConfigJSON : Json → Option ConfigJSON
  | .null => some ⟨[]⟩
  | .obj fs =>
    match lastFieldVal fs (gs "auths") with
    | none => some ⟨[]⟩
    | some v => (unmarshalAuthsMap v).map ConfigJSON.mk
  | _ => none

/- ## Kubernetes secrets and the harvesting code of `auth.go` -/

/-- A `corev1.Secret` as the auth code reads it: name, type tag, and the
data map; a data value is the parsed JSON of the stored bytes, or `none`
when the bytes are not valid JSON text. -/
structure Secret where
  name : GoStr
  type : GoStr
  data : AList (Option Json)

/-- `corev1.SecretTypeDockerConfigJson`. -/
def secretTypeDockerConfigJson : GoStr := gs "kubernetes.io/dockerconfigjson"

/-- `corev1.DockerConfigJsonKey`. -/
def dockerConfigJsonKey : GoStr := gs ".dockerconfigjson"

/-- `validDockerConfigSecret` (auth.go): require the docker-config secret
type, the `.dockerconfigjson` data key, and a parseable payload; the error
reasons all lead to skipping the secret, so they are collapsed to `none`. -/
def validDockerConfigSecret (s : Secret) : Option ConfigJSON :=
  if s.type ≠ secretTypeDockerConfigJson then none
  else
    match lookupA s.data dockerConfigJsonKey with
    | none => none
    | some none => none
    | some (some j) => unmarshalConfigJSON j

/-- `decodeDockerAuth` (auth.go): base64-decode the `auth` value, split at
the first `':'`; no separator yields the empty entry without error; the
password half is passed through `strings.Trim(…, "\x00")`. -/
def decodeDockerAuth (conf : AuthConfig) : Except GoStr ConfigEntry :=
  match base64Decode conf.auth with
  | none => .error (gs "unable to decode docker auth")
  | some decoded =>
    match goCut decoded 58 with
    | (user, passwordPart, true) => .ok ⟨user, trimNul passwordPart⟩
    | (_, _, false) => .ok ⟨[], []⟩

/-- `normalizeSecretRegistry` (auth.go): `strings.TrimPrefix(reg, "http://")`
then `strings.TrimPrefix(…, "https://")`. -/
def normalizeSecretRegistry (reg : GoStr) : GoStr :=
  goTrimPrefix (goTrimPrefix reg (gs "http://")) (gs "https://")

/-- The qualification decision of `updateAuthContents`: some mirror starts
with the normalized registry name, or the image reference does. -/
def qualifiesB (mirrors : List GoStr) (image n : GoStr) : Bool :=
  mirrors.any (fun m => n.isPrefixOf m) || n.isPrefixOf image

/-- The body of the per-registry loop of `updateAuthContents`: decode the
auth (skipping undecodable entries), then insert the entry under the
normalized registry name once for each matching mirror and once if the
image matches. -/
def processEntry (image : GoStr) (mirrors : List GoStr) (auths : AList ConfigEntry)
    (registry : GoStr) (authConfig : AuthConfig) : AList ConfigEntry :=
  match decodeDockerAuth authConfig with
  | .error _ => auths
  | .ok e =>
    let n := normalizeSecretRegistry registry
    let afterMirrors :=
      mirrors.foldl (fun a m => if n.isPrefixOf m then insertA a n e else a) auths
    if n.isPrefixOf image then insertA afterMirrors n e else afterMirrors

/-- The per-secret loop of `updateAuthContents`: invalid secrets are skipped,
valid ones contribute each of their registry entries. -/
def processSecret (image : GoStr) (mirrors : List GoStr) (auths : AList ConfigEntry)
    (s : Secret) : AList ConfigEntry :=
  match validDockerConfigSecret s with
  | none => auths
  | some cfg => cfg.Auths.foldl (fun a p => processEntry image mirrors a p.1 p.2) auths

/-- The `auths` map collected by `updateAuthContents` before merging. -/
def collectAuths (secrets : List Secret) (image : GoStr) (mirrors : List GoStr) :
    AList ConfigEntry :=
  secrets.foldl (processSecret image mirrors) []

/-- Re-encoding done by the merge loop of `updateAuthContents`:
`base64(username + ":" + password)`. -/
def encodeEntry (e : ConfigEntry) : AuthConfig :=
  ⟨base64Encode (e.username ++ 58 :: e.password)⟩

/-- `updateAuthContents` (auth.go): collect the qualifying secret entries,
then overwrite the global auth file contents with them. -/
def updateAuthContents (secrets : List Secret) (globalAuthContents : ConfigJSON)
    (image : GoStr) (mirrors : List GoStr) : ConfigJSON :=
  ⟨(collectAuths secrets image mirrors).foldl
    (fun g p => insertA g p.1 (encodeEntry p.2)) globalAuthContents.Auths⟩

/-- The registry/auth pairs of the valid secrets, in processing order. -/
def entriesOf (s : Secret) : List (GoStr × AuthConfig) :=
  match validDockerConfigSecret s with
  | none => []
  | some cfg => cfg.Auths

/-- The decoded (registry, entry) pairs the loops of `updateAuthContents`
actually consider: entries of valid secrets whose auth value decodes. -/
def decodedPairs (secrets : List Secret) : List (GoStr × ConfigEntry) :=
  secrets.flatMap (fun s =>
    (entriesOf s).filterMap (fun p =>
      match decodeDockerAuth p.2 with
      | .error _ => none
      | .ok e => some (p.1, e)))

/-- One step of the flattened collection fold: insert a decoded pair under
its normalized name exactly when it qualifies. -/
def stepPair (mirrors : List GoStr) (image : GoStr) (a : AList ConfigEntry)
    (p : GoStr × ConfigEntry) : AList ConfigEntry :=
  if qualifiesB mirrors image (normalizeSecretRegistry p.1) then
    insertA a (normalizeSecretRegistry p.1) p.2
  else a

theorem foldl_mirror_insert (mirrors : List GoStr) (auths : AList ConfigEntry)
    (n : GoStr) (e : ConfigEntry) :
    mirrors.foldl (fun a m => if n.isPrefixOf m then insertA a n e else a) auths
      = if mirrors.any (fun m => n.isPrefixOf m) then insertA auths n e else auths := by
  induction mirrors generalizing auths with
  | nil => simp
  | cons m rest ih =>
    by_cases hm : n.isPrefixOf m
    · simp only [List.foldl_cons, List.any_cons, hm, if_pos, Bool.true_or, if_true]
      rw [ih (insertA auths n e)]
      by_cases hr : rest.any (fun m => n.isPrefixOf m)
      · simp [hr, insertA_insertA]
      · simp [hr]
    · simp only [List.foldl_cons, List.any_cons]
      simp only [hm, if_false, Bool.false_or]
      exact ih auths

theorem processEntry_eq (image : GoStr) (mirrors : List GoStr) (auths : AList ConfigEntry)
    (registry : GoStr) (authConfig : AuthConfig) :
    processEntry image mirrors auths registry authConfig
      = match decodeDockerAuth authConfig with
        | .error _ => auths
        | .ok e => stepPair mirrors image auths (registry, e) := by
  cases hd : decodeDockerAuth authConfig with
  | error err => simp [processEntry, hd]
  | ok e =>
    simp only [processEntry, hd, stepPair, qualifiesB]
    rw [foldl_mirror_insert]
    by_cases hmir : mirrors.any (fun m => (normalizeSecretRegistry registry).isPrefixOf m)
    · by_cases himg : (normalizeSecretRegistry registry).isPrefixOf image
      · simp [hmir, himg, insertA_insertA]
      · simp [hmir, himg]
    · by_cases himg : (normalizeSecretRegistry registry).isPrefixOf image
      · simp [hmir, himg]
      · simp [hmir, himg]

theorem foldl_entries_eq (image : GoStr) (mirrors : List GoStr)
    (entries : List (GoStr × AuthConfig)) (auths : AList ConfigEntry) :
    entries.foldl (fun a p => processEntry image mirrors a p.1 p.2) auths
      = (entries.filterMap (fun p =>
          match decodeDockerAuth p.2 with
          | .error _ => none
          | .ok e => some (p.1, e))).foldl (stepPair mirrors image) auths := by
  induction entries generalizing auths with
  | nil => simp
  | cons p rest ih =>
    simp only [List.foldl_cons, List.filterMap_cons]
    cases hd : decodeDockerAuth p.2 with
    | error err => rw [processEntry_eq]; simp only [hd]; exact ih auths
    | ok e =>
      rw [processEntry_eq]
      simp only [hd, List.foldl_cons]
      exact ih (stepPair mirrors image auths (p.1, e))

theorem collectAuths_eq_flat (secrets : List Secret) (image : GoStr)
    (mirrors : List GoStr) :
    collectAuths secrets image mirrors
      = (decodedPairs secrets).foldl (stepPair mirrors image) [] := by
  suffices hgen : ∀ (a : AList ConfigEntry),
      secrets.foldl (processSecret image mirrors) a
        = (decodedPairs secrets).foldl (stepPair mirrors image) a by
    exact hgen []
  induction secrets with
  | nil => intro a; simp [decodedPairs]
  | cons s rest ih =>
    intro a
    simp only [List.foldl_cons, decodedPairs, List.flatMap_cons, List.foldl_append]
    rw [ih]
    congr 1
    simp only [processSecret, entriesOf]
    cases hv : validDockerConfigSecret s with
    | none => simp
    | some cfg => exact foldl_entries_eq image mirrors cfg.Auths a

theorem hasKeyA_stepPair_fold (mirrors : List GoStr) (image : GoStr)
    (l : List (GoStr × ConfigEntry)) (a : AList ConfigEntry) (n : GoStr) :
    hasKeyA (l.foldl (stepPair mirrors image) a) n = true ↔
      hasKeyA a n = true ∨
        ∃ p ∈ l, normalizeSecretRegistry p.1 = n ∧ qualifiesB mirrors image n = true := by
  induction l generalizing a with
  | nil => simp
  | cons p rest ih =>
    simp only [List.foldl_cons, List.mem_cons]
    rw [ih]
    constructor
    · rintro (hacc | hex)
      · by_cases hq : qualifiesB mirrors image (normalizeSecretRegistry p.1) = true
        · simp only [stepPair, hq, if_true] at hacc
          by_cases hn : n = normalizeSecretRegistry p.1
          · right
            exact ⟨p, Or.inl rfl, hn.symm, by rwa [hn]⟩
          · left
            simpa [hasKeyA, lookupA_insertA_ne _ _ _ _ hn] using hacc
        · simp only [stepPair, hq, if_false] at hacc
          left; exact hacc
      · obtain ⟨q, hq, hqn, hqual⟩ := hex
        right; exact ⟨q, Or.inr hq, hqn, hqual⟩
    · rintro (hacc | hex)
      · left
        by_cases hq : qualifiesB mirrors image (normalizeSecretRegistry p.1) = true
        · simp only [stepPair, hq, if_true]
          by_cases hn : n = normalizeSecretRegistry p.1
          · subst hn
            simp [hasKeyA, lookupA_insertA_self]
          · simpa [hasKeyA, lookupA_insertA_ne _ _ _ _ hn] using hacc
        · simpa [stepPair, hq] using hacc
      · obtain ⟨q, hq, hqn, hqual⟩ := hex
        rcases hq with hq | hq
        · subst hq
          left
          rw [← hqn] at hqual
          simp only [stepPair, hqual, if_true]
          rw [hqn]
          simp [hasKeyA, lookupA_insertA_self]
        · right; exact ⟨q, hq, hqn, hqual⟩

theorem nodupKeysA_stepPair_fold (mirrors : List GoStr) (image : GoStr)
    (l : List (GoStr × ConfigEntry)) (a : AList ConfigEntry) (ha : nodupKeysA a) :
    nodupKeysA (l.foldl (stepPair mirrors image) a) := by
  induction l generalizing a with
  | nil => exact ha
  | cons p rest ih =>
    simp only [List.foldl_cons]
    apply ih
    by_cases hq : qualifiesB mirrors image (normalizeSecretRegistry p.1) = true
    · simp only [stepPair, hq, if_true]
      exact nodupKeysA_insertA _ _ _ ha
    · simpa [stepPair, hq] using ha

theorem nodupKeysA_collectAuths (secrets : List Secret) (image : GoStr)
    (mirrors : List GoStr) : nodupKeysA (collectAuths secrets image mirrors) := by
  rw [collectAuths_eq_flat]
  exact nodupKeysA_stepPair_fold mirrors image (decodedPairs secrets) [] (by simp [nodupKeysA])

theorem lookup_merge_fold (l : AList ConfigEntry) (g : AList AuthConfig) (n : GoStr)
    (hnd : nodupKeysA l) :
    lookupA (l.foldl (fun g p => insertA g p.1 (encodeEntry p.2)) g) n
      = match lookupA l n with
        | some e => some (encodeEntry e)
        | none => lookupA g n := by
  induction l generalizing g with
  | nil => simp [lookupA]
  | cons p rest ih =>
    obtain ⟨k, e⟩ := p
    simp only [nodupKeysA, List.map_cons, List.nodup_cons] at hnd
    simp only [List.foldl_cons]
    rw [ih _ (hnd.2)]
    by_cases hn : k = n
    · subst hn
      have : lookupA rest k = none := lookupA_eq_none_of_not_memKeys rest k hnd.1
      simp [lookupA, this, lookupA_insertA_self]
    · simp only [lookupA, if_neg hn]
      cases hl : lookupA rest n with
      | none => simp [lookupA_insertA_ne _ _ _ _ (Ne.symm hn)]
      | some e' => simp

theorem qualifiesB_iff (mirrors : List GoStr) (image n : GoStr) :
    qualifiesB mirrors image n = true ↔
      ((∃ m ∈ mirrors, n <+: m) ∨ n <+: image) := by
  simp [qualifiesB, List.any_eq_true, List.isPrefixOf_iff_prefix]

/-- A concrete docker-config secret: registry key `https://quay.io`,
auth `dTpw` = base64("u:p"). -/
def secretOne : Secret :=
  ⟨gs "s1", secretTypeDockerConfigJson,
    [(dockerConfigJsonKey, some (Json.obj [(gs "auths",
      Json.obj [(gs "https://quay.io",
        Json.obj [(gs "auth", Json.str (gs "dTpw"))])])]))]⟩

/-- C1: for every decoded secret credential pair (registryName, entry) with
normalization `n`, the entry is collected into the merged map exactly when
some mirror has `n` as a literal prefix or the image reference has `n` as a
literal prefix (`collectAuths` is the set of secret-derived entries that
`updateAuthContents` merges); an unqualified pair never appears in the
result: at its key the merged map coincides with the global map. -/
theorem claim1 (secrets : List Secret) (global : ConfigJSON) (image : GoStr)
    (mirrors : List GoStr) (r : GoStr) (e : ConfigEntry)
    (hmem : (r, e) ∈ decodedPairs secrets) :
    (hasKeyA (collectAuths secrets image mirrors) (normalizeSecretRegistry r) = true
      ↔ ((∃ m ∈ mirrors, normalizeSecretRegistry r <+: m)
          ∨ normalizeSecretRegistry r <+: image))
    ∧ (qualifiesB mirrors image (normalizeSecretRegistry r) = false →
        lookupA (updateAuthContents secrets global image mirrors).Auths
            (normalizeSecretRegistry r)
          = lookupA global.Auths (normalizeSecretRegistry r)) := by
  constructor
  · rw [← qualifiesB_iff, collectAuths_eq_flat, hasKeyA_stepPair_fold]
    constructor
    · rintro (habs | ⟨p, hp, hpn, hq⟩)
      · simp [hasKeyA, lookupA] at habs
      · exact hq
    · intro hq
      right
      exact ⟨(r, e), hmem, rfl, hq⟩
  · intro hq
    have hkey : lookupA (collectAuths secrets image mirrors)
        (normalizeSecretRegistry r) = none := by
      by_contra hn
      have hk : hasKeyA (collectAuths secrets image mirrors)
          (normalizeSecretRegistry r) = true := by
        simp [hasKeyA, Option.isSome_iff_ne_none, hn]
      rw [collectAuths_eq_flat, hasKeyA_stepPair_fold] at hk
      rcases hk with habs | ⟨p, hp, hpn, hqual⟩
      · simp [hasKeyA, lookupA] at habs
      · rw [hq] at hqual
        exact Bool.false_ne_true hqual
    simp only [updateAuthContents]
    rw [lookup_merge_fold _ _ _ (nodupKeysA_collectAuths secrets image mirrors)]
    simp [hkey]

/-- Witness for C1 at a concrete qualifying input: secret registry
`https://quay.io`, mirror `quay.io/foo`, image `example.com/x`. -/
theorem claim1_witness :
    hasKeyA (collectAuths [secretOne] (gs "example.com/x") [gs "quay.io/foo"])
      (normalizeSecretRegistry (gs "https://quay.io")) = true :=
  (claim1 [secretOne] ⟨[]⟩ (gs "example.com/x") [gs "quay.io/foo"]
    (gs "https://quay.io") ⟨gs "u", gs "p"⟩ (by decide)).1.mpr (by decide)

/-- C2: for every key of the merged map: a qualifying secret entry wins over
the global value; a key untouched by qualifying secret entries keeps its
global value; and if no secret entries qualify at all the merged map is the
global map unchanged. -/
theorem claim2 (secrets : List Secret) (global : ConfigJSON) (image : GoStr)
    (mirrors : List GoStr) :
    (∀ A s, lookupA (collectAuths secrets image mirrors) A = some s →
        lookupA (updateAuthContents secrets global image mirrors).Auths A
          = some (encodeEntry s))
    ∧ (∀ A, lookupA (collectAuths secrets image mirrors) A = none →
        lookupA (updateAuthContents secrets global image mirrors).Auths A
          = lookupA global.Auths A)
    ∧ (collectAuths secrets image mirrors = [] →
        updateAuthContents secrets global image mirrors = global) := by
  refine ⟨?_, ?_, ?_⟩
  · intro A s hA
    simp only [updateAuthContents]
    rw [lookup_merge_fold _ _ _ (nodupKeysA_collectAuths secrets image mirrors)]
    simp [hA]
  · intro A hA
    simp only [updateAuthContents]
    rw [lookup_merge_fold _ _ _ (nodupKeysA_collectAuths secrets image mirrors)]
    simp [hA]
  · intro h
    simp only [updateAuthContents, h, List.foldl_nil]

/-- Witness for C2 at a concrete input: the qualifying secret entry for
`quay.io` overwrites, re-encoded as base64("u:p"). -/
theorem claim2_witness :
    lookupA (updateAuthContents [secretOne] ⟨[(gs "quay.io", ⟨gs "Zzpn"⟩)]⟩
        (gs "example.com/x") [gs "quay.io/foo"]).Auths (gs "quay.io")
      = some (encodeEntry ⟨gs "u", gs "p"⟩) :=
  (claim2 [secretOne] ⟨[(gs "quay.io", ⟨gs "Zzpn"⟩)]⟩ (gs "example.com/x")
    [gs "quay.io/foo"]).1 (gs "quay.io") ⟨gs "u", gs "p"⟩ (by decide)

deriving instance DecidableEq for Except

theorem goTrimPrefix_suffix (s p : GoStr) : goTrimPrefix s p <:+ s := by
  unfold goTrimPrefix
  split
  · exact List.drop_suffix _ _
  · exact List.suffix_refl _

theorem goCut_append_sep (u p : List Nat) (hu : 58 ∉ u) :
    goCut (u ++ 58 :: p) 58 = (u, p, true) := by
  induction u with
  | nil => simp [goCut]
  | cons c r ih =>
    have hc : c ≠ 58 := fun h => hu (by simp [h])
    have hr : 58 ∉ r := fun h => hu (by simp [h])
    simp [goCut, hc, ih hr]

theorem goCut_no_sep (bs : List Nat) (h : 58 ∉ bs) : goCut bs 58 = (bs, [], false) := by
  induction bs with
  | nil => simp [goCut]
  | cons c r ih =>
    have hc : c ≠ 58 := fun hcc => h (by simp [hcc])
    have hr : 58 ∉ r := fun hrr => h (by simp [hrr])
    simp [goCut, hc, ih hr]

/-- Counterexample to C6 as stated: for `auth = base64("u:\x00p\x00")` the
code yields password `"p"`, stripping the NUL on both sides, whereas
"only trailing NUL padding is stripped" demands `"\x00p"`. -/
theorem claim6_counterexample :
    decodeDockerAuth ⟨base64Encode (gs "u:" ++ 0 :: gs "p" ++ [0])⟩
        = .ok ⟨gs "u", gs "p"⟩
      ∧ gs "p" ≠ 0 :: gs "p" := by constructor <;> decide

theorem decodeDockerAuth_encode_colon (u p : List Nat) (hu : ∀ b ∈ u, b < 256)
    (hp : ∀ b ∈ p, b < 256) (hcolon : 58 ∉ u) :
    decodeDockerAuth ⟨base64Encode (u ++ 58 :: p)⟩ = .ok ⟨u, trimNul p⟩ := by
  have hbytes : ∀ b ∈ u ++ 58 :: p, b < 256 := by
    intro b hb
    rcases List.mem_append.mp hb with hb | hb
    · exact hu b hb
    · rcases List.mem_cons.mp hb with hb | hb
      · omega
      · exact hp b hb
  simp only [decodeDockerAuth, base64Decode_encode _ hbytes, goCut_append_sep u p hcolon]

/-- C6 (amended): decoding `base64(user:pass)` yields the user together with
the password stripped of leading and trailing NUL bytes (not only
trailing); decoded bytes without `':'` give the empty pair without error;
and a failing base64 decode is rejected with an error. -/
theorem claim6 :
    (∀ u p : List Nat, (∀ b ∈ u, b < 256) → (∀ b ∈ p, b < 256) → 58 ∉ u →
        decodeDockerAuth ⟨base64Encode (u ++ 58 :: p)⟩ = .ok ⟨u, trimNul p⟩)
    ∧ (∀ bs : List Nat, (∀ b ∈ bs, b < 256) → 58 ∉ bs →
        decodeDockerAuth ⟨base64Encode bs⟩ = .ok ⟨[], []⟩)
    ∧ (∀ a : GoStr, base64Decode a = none →
        decodeDockerAuth ⟨a⟩ = .error (gs "unable to decode docker auth")) := by
  refine ⟨decodeDockerAuth_encode_colon, ?_, ?_⟩
  · intro bs hbs hcolon
    simp only [decodeDockerAuth, base64Decode_encode _ hbs, goCut_no_sep bs hcolon]
  · intro a ha
    simp only [decodeDockerAuth, ha]

/-- Witness for C6 (amended) at `user = "u"`, `pass = "\x00p\x00"`. -/
theorem claim6_witness :
    decodeDockerAuth ⟨base64Encode (gs "u" ++ 58 :: (0 :: gs "p" ++ [0]))⟩
      = .ok ⟨gs "u", trimNul (0 :: gs "p" ++ [0])⟩ :=
  claim6.1 (gs "u") (0 :: gs "p" ++ [0]) (by decide) (by decide) (by decide)

/-- Counterexample to C8 as stated: normalization is not idempotent on
`https://http://x` — the first pass strips `https://`, the second strips
the then-leading `http://`. -/
theorem claim8_counterexample :
    normalizeSecretRegistry (normalizeSecretRegistry (gs "https://http://x"))
      ≠ normalizeSecretRegistry (gs "https://http://x") := by decide

/-- C8 (amended): normalization is case-preserving — it returns a literal
suffix of its input — and it is idempotent on every string whose normalized
form does not itself begin with a scheme prefix (a doubly prefixed name
such as `https://http://x` is trimmed again by a second pass). -/
theorem claim8 :
    (∀ s : GoStr, normalizeSecretRegistry s <:+ s)
    ∧ (∀ s : GoStr,
        goHasPrefix (normalizeSecretRegistry s) (gs "http://") = false →
        goHasPrefix (normalizeSecretRegistry s) (gs "https://") = false →
        normalizeSecretRegistry (normalizeSecretRegistry s) = normalizeSecretRegistry s) := by
  constructor
  · intro s
    exact (goTrimPrefix_suffix (goTrimPrefix s (gs "http://")) (gs "https://")).trans
      (goTrimPrefix_suffix s (gs "http://"))
  · intro s h1 h2
    show goTrimPrefix (goTrimPrefix (normalizeSecretRegistry s) (gs "http://"))
        (gs "https://") = normalizeSecretRegistry s
    simp only [goHasPrefix] at h1 h2
    simp [goTrimPrefix, h1, h2]

/-- Witness for C8 (amended) at a well-formed registry name. -/
theorem claim8_witness :
    normalizeSecretRegistry (normalizeSecretRegistry (gs "https://quay.io"))
      = normalizeSecretRegistry (gs "https://quay.io") :=
  claim8.2 (gs "https://quay.io") (by decide) (by decide)

/- ## SHA-256 (Go `crypto/sha256`) over byte lists, words as Nat mod 2^32 -/

/-- 32-bit right rotation (words are Nats < 2^32). -/
def rotr32 (n x : Nat) : Nat := ((x >>> n) ||| (x <<< (32 - n))) % 4294967296

/-- SHA-256 round constants (FIPS 180-4), written in decimal. -/
def sha256K : List Nat :=
  [   1116352408, 1899447441, 3049323471, 3921009573,
   961987163, 1508970993, 2453635748, 2870763221,
   3624381080, 310598401, 607225278, 1426881987,
   1925078388, 2162078206, 2614888103, 3248222580,
   3835390401, 4022224774, 264347078, 604807628,
   770255983, 1249150122, 1555081692, 1996064986,
   2554220882, 2821834349, 2952996808, 3210313671,
   3336571891, 3584528711, 113926993, 338241895,
   666307205, 773529912, 1294757372, 1396182291,
   1695183700, 1986661051, 2177026350, 2456956037,
   2730485921, 2820302411, 3259730800, 3345764771,
   3516065817, 3600352804, 4094571909, 275423344,
   430227734, 506948616, 659060556, 883997877,
   958139571, 1322822218, 1537002063, 1747873779,
   1955562222, 2024104815, 2227730452, 2361852424,
   2428436474, 2756734187, 3204031479, 3329325298]

/-- The eight SHA-256 working variables. -/
structure Sha256State where
  a : Nat
  b : Nat
  c : Nat
  d : Nat
  e : Nat
  f : Nat
  g : Nat
  h : Nat

/-- SHA-256 initial hash value (FIPS 180-4), written in decimal. -/
def sha256Init : Sha256State :=
  ⟨1779033703, 3144134277, 1013904242, 2773480762, 1359893119, 2600822924, 528734635, 1541459225⟩

/-- Message padding: `0x80`, zeros to 56 mod 64, 64-bit big-endian bit length. -/
def sha256Pad (msg : List Nat) : List Nat :=
  let L := msg.length
  let k := (119 - L % 64) % 64
  let bitLen := L * 8
  msg ++ 128 :: List.replicate k 0 ++
    [bitLen >>> 56 % 256, bitLen >>> 48 % 256, bitLen >>> 40 % 256, bitLen >>> 32 % 256,
     bitLen >>> 24 % 256, bitLen >>> 16 % 256, bitLen >>> 8 % 256, bitLen % 256]

/-- Split a padded message into its 64-byte blocks (`n` = block count). -/
def sha256Blocks : Nat → List Nat → List (List Nat)
  | 0, _ => []
  | n + 1, l => l.take 64 :: sha256Blocks n (l.drop 64)

/-- Big-endian 32-bit words of one block. -/
def sha256Words : List Nat → List Nat
  | b1 :: b2 :: b3 :: b4 :: rest =>
      (b1 * 16777216 + b2 * 65536 + b3 * 256 + b4) :: sha256Words rest
  | _ => []

/-- One message-schedule extension step, appending word `i = w.length`. -/
def sha256ExtendStep (w : List Nat) : List Nat :=
  let i := w.length
  let s0 :=
    rotr32 7 (w.getD (i - 15) 0) ^^^ rotr32 18 (w.getD (i - 15) 0) ^^^ (w.getD (i - 15) 0 >>> 3)
  let s1 :=
    rotr32 17 (w.getD (i - 2) 0) ^^^ rotr32 19 (w.getD (i - 2) 0) ^^^ (w.getD (i - 2) 0 >>> 10)
  w ++ [(w.getD (i - 16) 0 + s0 + w.getD (i - 7) 0 + s1) % 4294967296]

/-- Extend the 16 block words to the 64-entry message schedule. -/
def sha256Extend : Nat → List Nat → List Nat
  | 0, w => w
  | n + 1, w => sha256Extend n (sha256ExtendStep w)

/-- One SHA-256 round for schedule word `wk.1` and constant `wk.2`. -/
def sha256Round (st : Sha256State) (wk : Nat × Nat) : Sha256State :=
  let S1 := rotr32 6 st.e ^^^ rotr32 11 st.e ^^^ rotr32 25 st.e
  let ch := (st.e &&& st.f) ^^^ ((st.e ^^^ 0xffffffff) &&& st.g)
  let t1 := (st.h + S1 + ch + wk.2 + wk.1) % 4294967296
  let S0 := rotr32 2 st.a ^^^ rotr32 13 st.a ^^^ rotr32 22 st.a
  let maj := (st.a &&& st.b) ^^^ (st.a &&& st.c) ^^^ (st.b &&& st.c)
  let t2 := (S0 + maj) % 4294967296
  ⟨(t1 + t2) % 4294967296, st.a, st.b, st.c, (st.d + t1) % 4294967296, st.e, st.f, st.g⟩

/-- Compress one 64-byte block into the running state. -/
def sha256Compress (st : Sha256State) (block : List Nat) : Sha256State :=
  let w := sha256Extend 48 (sha256Words block)
  let r := (w.zip sha256K).foldl sha256Round st
  ⟨(st.a + r.a) % 4294967296, (st.b + r.b) % 4294967296, (st.c + r.c) % 4294967296,
   (st.d + r.d) % 4294967296, (st.e + r.e) % 4294967296, (st.f + r.f) % 4294967296,
   (st.g + r.g) % 4294967296, (st.h + r.h) % 4294967296⟩

/-- Big-endian bytes of a 32-bit word. -/
def be32 (n : Nat) : List Nat := [n >>> 24 % 256, n >>> 16 % 256, n >>> 8 % 256, n % 256]

/-- `sha256.Sum256`: the 32 digest bytes of a byte message. -/
def sha256 (msg : List Nat) : List Nat :=
  let padded := sha256Pad msg
  let st := (sha256Blocks (padded.length / 64) padded).foldl sha256Compress sha256Init
  be32 st.a ++ be32 st.b ++ be32 st.c ++ be32 st.d ++ be32 st.e ++ be32 st.f ++
    be32 st.g ++ be32 st.h

/-- Lowercase hex byte pair of one byte (Go `%x` formatting). -/
def hexByte (b : Nat) : List Nat :=
  let d := fun n => if n < 10 then 48 + n else 87 + n
  [d (b / 16), d (b % 16)]

/-- Lowercase hex of the SHA-256 digest of a byte message. -/
def sha256hex (msg : List Nat) : List Nat := (sha256 msg).flatMap hexByte

/- ## Persistence layer -/

/-- Unix `filepath.IsAbs`: the path starts with a slash. -/
def goIsAbs (p : GoStr) : Bool :=
  match p with
  | c :: _ => c == 47
  | [] => false

/-- Modelled from the spec: the public `auth.FilePath(dir, namespace, imageRef)`
helper, whose implementation is not among the sources (only its unit tests
and its caller `writeAuthFile` are).  Per §3/§4.5 it fails unless `dir` is
absolute and `namespace` and `imageRef` are non-empty, and returns
`directory/<namespace>-<hex(sha256(image))>.json`; the check order and the
resulting path match the expectations of `pkg/auth/auth_test.go`. -/
def FilePath (dir ns imageRef : GoStr) : Except GoStr GoStr :=
  if goIsAbs dir = false then .error (gs "provided directory is not an absolute path")
  else if ns = [] then .error (gs "no namespace provided")
  else if imageRef = [] then .error (gs "no image ref provided")
  else .ok (dir ++ 47 :: ns ++ 45 :: sha256hex imageRef ++ gs ".json")

/-- `writeAuthFile` (auth.go): reject empty contents, ensure the directory,
derive the output path, write the JSON.  Directory creation and the file
write are the effects outside the core and are modelled as succeeding; an
error therefore means that no file was written. -/
def writeAuthFile (dir image ns : GoStr) (fileContents : ConfigJSON) :
    Except GoStr GoStr :=
  if fileContents.Auths = [] then .error (gs "no auths found in file contents")
  else
    match FilePath dir ns image with
    | .error e => .error (gs "get auth path: " ++ e)
    | .ok path => .ok path

/-- The path of the file `writeAuthFile` wrote, `none` when it wrote none. -/
def writtenAuthFile (dir image ns : GoStr) (fileContents : ConfigJSON) :
    Option GoStr :=
  (writeAuthFile dir image ns fileContents).toOption

/-- The outcome of reading the global auth file: the path may be absent,
unreadable, or hold bytes (parsed JSON, or `none` for invalid JSON text). -/
inductive GlobalRead where
  | absent : GlobalRead
  | unreadable : GlobalRead
  | content (j : Option Json) : GlobalRead

/-- `readGlobalAuthFile` (auth.go): a missing file is an empty map, a read
failure or unparseable content is an error. -/
def readGlobalAuthFile : GlobalRead → Except GoStr ConfigJSON
  | .absent => .ok ⟨[]⟩
  | .unreadable => .error (gs "unable to read global auth file")
  | .content none => .error (gs "unmarshaling JSON")
  | .content (some j) =>
    match unmarshalConfigJSON j with
    | none => .error (gs "unmarshaling JSON")
    | some c => .ok c

/-- `CreateAuthFile` (auth.go): reject an empty namespace and nil secrets,
read the global auth file, merge, and write the namespace auth file. -/
def CreateAuthFile (secrets : Option (List Secret)) (globalAuthFile : GlobalRead)
    (authDir ns image : GoStr) (mirrors : List GoStr) : Except GoStr GoStr :=
  if ns = [] then .error (gs "namespace is empty")
  else
    match secrets with
    | none => .error (gs "secrets is nil")
    | some ss =>
      match readGlobalAuthFile globalAuthFile with
      | .error e => .error (gs "unable to read global auth file: " ++ e)
      | .ok globalAuthContents =>
        match writeAuthFile authDir image ns
            (updateAuthContents ss globalAuthContents image mirrors) with
        | .error e => .error (gs "unable to write namespace auth file: " ++ e)
        | .ok path => .ok path

/-- C5: persisting fails whenever the namespace is empty, the image is
empty, the directory is not absolute, or the merged map has no entries —
and an error means no file is written (`writtenAuthFile` is `none`). -/
theorem claim5 (dir image ns : GoStr) (fileContents : ConfigJSON)
    (h : ns = [] ∨ image = [] ∨ goIsAbs dir = false ∨ fileContents.Auths = []) :
    (∃ e, writeAuthFile dir image ns fileContents = .error e)
    ∧ writtenAuthFile dir image ns fileContents = none := by
  have hnone : (writeAuthFile dir image ns fileContents).toOption = none := by
    unfold writeAuthFile FilePath
    rcases h with h | h | h | h <;> split_ifs <;> simp_all [Except.toOption]
  cases hw : writeAuthFile dir image ns fileContents with
  | error e => exact ⟨⟨e, rfl⟩, by unfold writtenAuthFile; rw [hw]; rfl⟩
  | ok p => rw [hw] at hnone; simp [Except.toOption] at hnone

/-- Witness for C5: empty merged contents are rejected and nothing written. -/
theorem claim5_witness :
    (∃ e, writeAuthFile (gs "/etc/crio/auth") (gs "quay.io/img") (gs "ns") ⟨[]⟩
        = .error e)
    ∧ writtenAuthFile (gs "/etc/crio/auth") (gs "quay.io/img") (gs "ns") ⟨[]⟩ = none :=
  claim5 (gs "/etc/crio/auth") (gs "quay.io/img") (gs "ns") ⟨[]⟩ (by simp)

/-- C7: for fixed (directory, namespace, image) the produced output path is
exactly `directory/<namespace>-<lowercase hex of sha256(image)>.json`, and
it is deterministic — every invocation yields that same path. -/
theorem claim7 (dir ns image : GoStr) (habs : goIsAbs dir = true)
    (hns : ns ≠ []) (himg : image ≠ []) :
    FilePath dir ns image
        = .ok (dir ++ 47 :: ns ++ 45 :: sha256hex image ++ gs ".json")
    ∧ (∀ p q, FilePath dir ns image = .ok p →
        FilePath dir ns image = .ok q → p = q) := by
  constructor
  · simp [FilePath, habs, hns, himg]
  · intro p q hp hq
    rw [hp] at hq
    injection hq

set_option maxRecDepth 100000 in
/-- Witness for C7 at the repository's own test vector:
`FilePath("/some/dir", "namespace", "image:latest")`. -/
theorem claim7_witness :
    FilePath (gs "/some/dir") (gs "namespace") (gs "image:latest")
      = .ok (gs "/some/dir/namespace-baee713fe56d0f5189067a1126374bc39cd8bbca1cd980322f0c8596cd400826.json") := by
  rw [(claim7 (gs "/some/dir") (gs "namespace") (gs "image:latest")
    (by decide) (by decide) (by decide)).1]
  decide

/- ## The k8s claim extractor -/

/-- `cpv1.CredentialProviderRequest`, as far as the core reads it. -/
structure Request where
  image : GoStr
  serviceAccountToken : GoStr

/-- The fixed tenant-identity claim key `kubernetes.io`. -/
def k8sClaimKey : GoStr := gs "kubernetes.io"

/-- A JWT claims parser (the external `golang-jwt` library):
`parser.ParseUnverified` populating `jwt.MapClaims`, `none` on parse
failure; claim values are decoded JSON (`map[string]any` is `Json.obj`). -/
abbrev ClaimsParser := GoStr → Option (List (GoStr × Json))

/-- `ExtractNamespace` (k8s.go): nil-request and empty-token checks, parse
the token's claims, look up the `kubernetes.io` claim, assert it is a map,
look up `namespace`, assert it is a string, and return it verbatim. -/
def ExtractNamespace (req : Option Request) (parseClaims : ClaimsParser) :
    Except GoStr GoStr :=
  match req with
  | none => .error (gs "request is empty")
  | some r =>
    if r.serviceAccountToken = [] then .error (gs "request service account token is empty")
    else
      match parseClaims r.serviceAccountToken with
      | none => .error (gs "unable to parse JWT token")
      | some claims =>
        match lookupA claims k8sClaimKey with
        | none => .error (gs "no kubernetes.io claim name in JWT claims found")
        | some k8sClaim =>
          match k8sClaim with
          | .obj k8sClaimMap =>
            match lookupA k8sClaimMap (gs "namespace") with
            | none => .error (gs "no namespace found in kubernetes claim")
            | some (.str nsv) => .ok nsv
            | some _ => .error (gs "namespace is not a string object")
          | _ => .error (gs "kubernetes.io claim does not contain a map")

/-- C4: for a well-formed token whose parsed claims carry the
`kubernetes.io` claim as a map with a string `namespace` field,
`ExtractNamespace` returns that exact string verbatim (even the empty
string); and it fails for an empty token, an unparseable token, a missing
claim, a claim value that is not a map, a nested structure without a
`namespace` field, and a `namespace` field that is not a string. -/
theorem claim4 :
    (∀ (r : Request) (p : ClaimsParser) (claims : List (GoStr × Json))
        (m : List (GoStr × Json)) (nsv : GoStr),
        r.serviceAccountToken ≠ [] →
        p r.serviceAccountToken = some claims →
        lookupA claims k8sClaimKey = some (.obj m) →
        lookupA m (gs "namespace") = some (.str nsv) →
        ExtractNamespace (some r) p = .ok nsv)
    ∧ (∀ (r : Request) (p : ClaimsParser), r.serviceAccountToken = [] →
        ExtractNamespace (some r) p = .error (gs "request service account token is empty"))
    ∧ (∀ (r : Request) (p : ClaimsParser), r.serviceAccountToken ≠ [] →
        p r.serviceAccountToken = none →
        ExtractNamespace (some r) p = .error (gs "unable to parse JWT token"))
    ∧ (∀ (r : Request) (p : ClaimsParser) (claims : List (GoStr × Json)),
        r.serviceAccountToken ≠ [] →
        p r.serviceAccountToken = some claims →
        lookupA claims k8sClaimKey = none →
        ExtractNamespace (some r) p
          = .error (gs "no kubernetes.io claim name in JWT claims found"))
    ∧ (∀ (r : Request) (p : ClaimsParser) (claims : List (GoStr × Json)) (v : Json),
        r.serviceAccountToken ≠ [] →
        p r.serviceAccountToken = some claims →
        lookupA claims k8sClaimKey = some v →
        (∀ m, v ≠ .obj m) →
        ExtractNamespace (some r) p
          = .error (gs "kubernetes.io claim does not contain a map"))
    ∧ (∀ (r : Request) (p : ClaimsParser) (claims : List (GoStr × Json))
        (m : List (GoStr × Json)),
        r.serviceAccountToken ≠ [] →
        p r.serviceAccountToken = some claims →
        lookupA claims k8sClaimKey = some (.obj m) →
        lookupA m (gs "namespace") = none →
        ExtractNamespace (some r) p
          = .error (gs "no namespace found in kubernetes claim"))
    ∧ (∀ (r : Request) (p : ClaimsParser) (claims : List (GoStr × Json))
        (m : List (GoStr × Json)) (v : Json),
        r.serviceAccountToken ≠ [] →
        p r.serviceAccountToken = some claims →
        lookupA claims k8sClaimKey = some (.obj m) →
        lookupA m (gs "namespace") = some v →
        (∀ s, v ≠ .str s) →
        ExtractNamespace (some r) p
          = .error (gs "namespace is not a string object")) := by
  refine ⟨?_, ?_, ?_, ?_, ?_, ?_, ?_⟩
  · intro r p claims m nsv htok hp hclaim hns
    simp [ExtractNamespace, htok, hp, hclaim, hns]
  · intro r p htok
    simp [ExtractNamespace, htok]
  · intro r p htok hp
    simp [ExtractNamespace, htok, hp]
  · intro r p claims htok hp hclaim
    simp [ExtractNamespace, htok, hp, hclaim]
  · intro r p claims v htok hp hclaim hv
    cases v with
    | obj m => exact absurd rfl (hv m)
    | null => simp [ExtractNamespace, htok, hp, hclaim]
    | bool b => simp [ExtractNamespace, htok, hp, hclaim]
    | num q => simp [ExtractNamespace, htok, hp, hclaim]
    | str s => simp [ExtractNamespace, htok, hp, hclaim]
    | arr xs => simp [ExtractNamespace, htok, hp, hclaim]
  · intro r p claims m htok hp hclaim hns
    simp [ExtractNamespace, htok, hp, hclaim, hns]
  · intro r p claims m v htok hp hclaim hns hv
    cases v with
    | str s => exact absurd rfl (hv s)
    | null => simp [ExtractNamespace, htok, hp, hclaim, hns]
    | bool b => simp [ExtractNamespace, htok, hp, hclaim, hns]
    | num q => simp [ExtractNamespace, htok, hp, hclaim, hns]
    | obj fs => simp [ExtractNamespace, htok, hp, hclaim, hns]
    | arr xs => simp [ExtractNamespace, htok, hp, hclaim, hns]

/-- Witness for C4 at a concrete request and parser, returning the
namespace string verbatim. -/
theorem claim4_witness :
    ExtractNamespace (some ⟨gs "quay.io/img", gs "tok"⟩)
        (fun _ => some [(k8sClaimKey, .obj [(gs "namespace", .str (gs "team-a"))])])
      = .ok (gs "team-a") :=
  claim4.1 ⟨gs "quay.io/img", gs "tok"⟩
    (fun _ => some [(k8sClaimKey, .obj [(gs "namespace", .str (gs "team-a"))])])
    [(k8sClaimKey, .obj [(gs "namespace", .str (gs "team-a"))])]
    [(gs "namespace", .str (gs "team-a"))] (gs "team-a")
    (by decide) rfl rfl rfl

/- ## C9: the two AuthEntry forms -/

/-- A docker-config secret whose single entry uses the `auth` form. -/
def mkAuthSecret (registry authVal : GoStr) : Secret :=
  ⟨gs "secret", secretTypeDockerConfigJson,
    [(dockerConfigJsonKey, some (.obj [(gs "auths",
      .obj [(registry, .obj [(gs "auth", .str authVal)])])]))]⟩

/-- A docker-config secret whose single entry for `quay.io` uses only the
explicit `username`/`password` form, no `auth` field. -/
def secretUserPass : Secret :=
  ⟨gs "s2", secretTypeDockerConfigJson,
    [(dockerConfigJsonKey, some (.obj [(gs "auths",
      .obj [(gs "quay.io",
        .obj [(gs "username", .str (gs "u")), (gs "password", .str (gs "p"))])])]))]⟩

theorem lastFieldVal_none (fields : List (GoStr × Json)) (name : GoStr)
    (h : ∀ kv ∈ fields, equalFold kv.1 name = false) :
    lastFieldVal fields name = none := by
  suffices hgen : ∀ acc : Option Json,
      fields.foldl (fun acc kv => if equalFold kv.1 name then some kv.2 else acc) acc = acc by
    exact hgen none
  induction fields with
  | nil => intro acc; simp
  | cons kv t ih =>
    intro acc
    have hkv : equalFold kv.1 name = false := h kv (by simp)
    simp only [List.foldl_cons, hkv, Bool.false_eq_true, if_false]
    exact ih (fun q hq => h q (by simp [hq])) acc

/-- Counterexample to C9 as stated: a qualifying secret entry written with
only explicit `username`/`password` fields lands in the merged map as the
empty credential pair `base64(":") = "Og=="`, not as base64("u:p"). -/
theorem claim9_counterexample :
    lookupA (updateAuthContents [secretUserPass] ⟨[]⟩ (gs "example.com/x")
        [gs "quay.io/foo"]).Auths (gs "quay.io") = some ⟨gs "Og=="⟩
    ∧ (⟨gs "Og=="⟩ : AuthConfig) ≠ encodeEntry ⟨gs "u", gs "p"⟩ := by
  constructor <;> decide

/-- C9 (amended): only the base64 `auth` field supplies credentials.  An
AuthEntry object with no (case-folded) `auth` key — such as one carrying
only explicit `username`/`password` fields — unmarshals to an empty auth
string, which decodes to the empty credential pair without error; an entry
supplied as `auth: base64(user:password)` does carry its credentials into
the merged map when it qualifies. -/
theorem claim9 :
    (∀ fs : List (GoStr × Json), (∀ kv ∈ fs, equalFold kv.1 (gs "auth") = false) →
        unmarshalAuthConfig (.obj fs) = some ⟨[]⟩)
    ∧ decodeDockerAuth ⟨[]⟩ = .ok ⟨[], []⟩
    ∧ (∀ u p registry : GoStr, (∀ b ∈ u, b < 256) → (∀ b ∈ p, b < 256) → 58 ∉ u →
        ∀ (image : GoStr) (mirrors : List GoStr),
        qualifiesB mirrors image (normalizeSecretRegistry registry) = true →
        lookupA (updateAuthContents
            [mkAuthSecret registry (base64Encode (u ++ 58 :: p))] ⟨[]⟩ image mirrors).Auths
            (normalizeSecretRegistry registry)
          = some (encodeEntry ⟨u, trimNul p⟩)) := by
  refine ⟨?_, by decide, ?_⟩
  · intro fs h
    simp [unmarshalAuthConfig, lastFieldVal_none fs (gs "auth") h]
  · intro u p registry hu hp hcolon image mirrors hq
    have hvalid : validDockerConfigSecret (mkAuthSecret registry (base64Encode (u ++ 58 :: p)))
        = some ⟨[(registry, ⟨base64Encode (u ++ 58 :: p)⟩)]⟩ := rfl
    have hdec := decodeDockerAuth_encode_colon u p hu hp hcolon
    have hcoll : collectAuths [mkAuthSecret registry (base64Encode (u ++ 58 :: p))]
        image mirrors
        = [(normalizeSecretRegistry registry, (⟨u, trimNul p⟩ : ConfigEntry))] := by
      simp only [collectAuths, List.foldl_cons, List.foldl_nil, processSecret, hvalid]
      rw [processEntry_eq]
      simp only [hdec, stepPair, hq, if_true, insertA]
    simp only [updateAuthContents, hcoll, List.foldl_cons, List.foldl_nil]
    exact lookupA_insertA_self _ _ _

/-- Witness for C9 (amended): the `auth`-form secret for `quay.io` carries
base64("u:p") into the merged map on an image-qualified pull. -/
theorem claim9_witness :
    lookupA (updateAuthContents
        [mkAuthSecret (gs "quay.io") (base64Encode (gs "u" ++ 58 :: gs "p"))] ⟨[]⟩
        (gs "quay.io/app") [gs "mirror.local"]).Auths
        (normalizeSecretRegistry (gs "quay.io"))
      = some (encodeEntry ⟨gs "u", trimNul (gs "p")⟩) :=
  claim9.2.2 (gs "u") (gs "p") (gs "quay.io") (by decide) (by decide) (by decide)
    (gs "quay.io/app") [gs "mirror.local"] (by decide)

/- ## The application entry point (app.go `Run`) -/

/-- Outcome of `os.Stat` on the registries configuration path. -/
inductive StatResult where
  | ok : StatResult
  | errNotExist : StatResult
  | errOther : StatResult
deriving DecidableEq

/-- The external inputs of one invocation: the stat of the registries conf
path, the parsed request from stdin (`none` = JSON decode failure), the JWT
claims parser, and the results of the mirror match, the secret listing and
the global auth file read. -/
structure RunEnv where
  statRegistries : StatResult
  request : Option Request
  parseClaims : ClaimsParser
  matchMirrors : Except GoStr (List GoStr)
  retrieveSecrets : Except GoStr (List Secret)
  globalAuthFile : GlobalRead

/-- What one invocation did: whether `Run` returned nil, whether the
success protocol response was written to stdout, which credential file was
written (if any), and which pipeline stages were reached. -/
structure RunResult where
  returnedNil : Bool
  wroteResponse : Bool
  wroteFile : Option GoStr
  parsedRequest : Bool
  extractedNamespace : Bool
  contactedSecretStore : Bool
deriving DecidableEq

/-- `Run` (app.go): stat the registries conf path (missing file: respond
and stop; other stat failure: error), decode the request, extract the
namespace, match mirrors (empty list: respond and stop without writing),
retrieve the secrets, create the auth file, respond. -/
def Run (env : RunEnv) (authDir : GoStr) : RunResult :=
  match env.statRegistries with
  | .errNotExist => ⟨true, true, none, false, false, false⟩
  | .errOther => ⟨false, false, none, false, false, false⟩
  | .ok =>
    match env.request with
    | none => ⟨false, false, none, true, false, false⟩
    | some req =>
      match ExtractNamespace (some req) env.parseClaims with
      | .error _ => ⟨false, false, none, true, true, false⟩
      | .ok nsv =>
        match env.matchMirrors with
        | .error _ => ⟨false, false, none, true, true, false⟩
        | .ok mirrors =>
          if mirrors = [] then ⟨true, true, none, true, true, false⟩
          else
            match env.retrieveSecrets with
            | .error _ => ⟨false, false, none, true, true, true⟩
            | .ok secrets =>
              match CreateAuthFile (some secrets) env.globalAuthFile authDir nsv
                  req.image mirrors with
              | .error _ => ⟨false, false, none, true, true, true⟩
              | .ok path => ⟨true, true, some path, true, true, true⟩

/-- The JWT claims parser used by the concrete environments below. -/
def parserC : ClaimsParser :=
  fun _ => some [(k8sClaimKey, .obj [(gs "namespace", .str (gs "ns"))])]

/-- Concrete environment: non-empty global auth file, one mirror, no
secrets (so nothing qualifies). -/
def envGlobalOnly : RunEnv :=
  ⟨.ok, some ⟨gs "registry.local/foo", gs "tok"⟩, parserC,
   .ok [gs "mirror.local"], .ok [],
   .content (some (.obj [(gs "auths",
     .obj [(gs "keep.io", .obj [(gs "auth", .str (gs "Zzpn"))])])]))⟩

/-- Concrete environment: empty mirror list. -/
def envNoMirrors : RunEnv :=
  ⟨.ok, some ⟨gs "registry.local/foo", gs "tok"⟩, parserC, .ok [], .ok [], .absent⟩

/-- Concrete environment: the registries conf path does not exist. -/
def envNotExist : RunEnv :=
  ⟨.errNotExist, none, fun _ => none, .ok [], .ok [], .absent⟩

/-- Counterexample to C3 as stated: with a non-empty mirror list, no
qualifying secret credentials, but a non-empty global credential file, the
invocation succeeds AND writes a credential file (carrying the global
entries) — not a non-writing outcome. -/
theorem claim3_counterexample :
    envGlobalOnly.matchMirrors = .ok [gs "mirror.local"]
    ∧ collectAuths [] (gs "registry.local/foo") [gs "mirror.local"] = []
    ∧ (Run envGlobalOnly (gs "/etc/crio/auth")).returnedNil = true
    ∧ (Run envGlobalOnly (gs "/etc/crio/auth")).wroteFile ≠ none := by
  refine ⟨rfl, rfl, ?_, ?_⟩ <;> decide

/-- C3 (amended): an empty resolved mirror list makes the invocation report
success and write no credential file; a non-empty mirror list with no
qualifying secret credentials AND an empty (or absent) global credential
map makes the invocation return an explicit error, writing no file (with a
non-empty global map the global entries are written instead). -/
theorem claim3 (env : RunEnv) (authDir : GoStr) (req : Request)
    (hstat : env.statRegistries = .ok) (hreq : env.request = some req)
    (hns : ∃ nsv, ExtractNamespace (some req) env.parseClaims = .ok nsv) :
    (env.matchMirrors = .ok [] →
      Run env authDir = ⟨true, true, none, true, true, false⟩)
    ∧ (∀ (mirrors : List GoStr) (secrets : List Secret),
        env.matchMirrors = .ok mirrors → mirrors ≠ [] →
        env.retrieveSecrets = .ok secrets →
        readGlobalAuthFile env.globalAuthFile = .ok ⟨[]⟩ →
        collectAuths secrets req.image mirrors = [] →
        (Run env authDir).returnedNil = false
          ∧ (Run env authDir).wroteFile = none) := by
  obtain ⟨nsv, hns⟩ := hns
  constructor
  · intro hm
    simp [Run, hstat, hreq, hns, hm]
  · intro mirrors secrets hm hne hsec hglob hcoll
    have hmerged : updateAuthContents secrets ⟨[]⟩ req.image mirrors = ⟨[]⟩ := by
      simp only [updateAuthContents, hcoll, List.foldl_nil]
    have hcreate : (CreateAuthFile (some secrets) env.globalAuthFile authDir nsv
        req.image mirrors).toOption = none := by
      unfold CreateAuthFile
      by_cases hnsv : nsv = []
      · simp [hnsv, Except.toOption]
      · simp [hnsv, hglob, hmerged, writeAuthFile, Except.toOption]
    cases hc : CreateAuthFile (some secrets) env.globalAuthFile authDir nsv
        req.image mirrors with
    | ok pth => rw [hc] at hcreate; simp [Except.toOption] at hcreate
    | error e =>
      constructor <;> simp [Run, hstat, hreq, hns, hm, hne, hsec, hc]

/-- Witness for C3 (amended): the empty-mirror-list clause at a concrete
environment. -/
theorem claim3_witness :
    Run envNoMirrors (gs "/etc/crio/auth") = ⟨true, true, none, true, true, false⟩ :=
  (claim3 envNoMirrors (gs "/etc/crio/auth") ⟨gs "registry.local/foo", gs "tok"⟩
    rfl rfl ⟨gs "ns", rfl⟩).1 rfl

/-- C10: when the registry-mirror configuration path does not exist, `Run`
writes the success response and returns nil without parsing the request,
extracting a namespace, contacting the secret store, or writing a
credential file; any other stat failure on that path is reported as an
error (and nothing else happens). -/
theorem claim10 (env : RunEnv) (authDir : GoStr) :
    (env.statRegistries = .errNotExist →
      Run env authDir = ⟨true, true, none, false, false, false⟩)
    ∧ (env.statRegistries = .errOther →
      Run env authDir = ⟨false, false, none, false, false, false⟩) := by
  constructor <;> intro h <;> simp [Run, h]

/-- Witness for C10: a concrete environment with a missing registries conf
path responds successfully touching nothing else. -/
theorem claim10_witness :
    Run envNotExist (gs "/etc/crio/auth") = ⟨true, true, none, false, false, false⟩ :=
  (claim10 envNotExist (gs "/etc/crio/auth")).1 rfl

end CrioCred
